import Mathlib

/-!
Verification of the solution-file parser and compile-command generator
(`sln/sln.go` of the vs_export repository).

The Go code is shallowly embedded below.  Strings are handled through their
character lists (`String.data`), so that every operation is a structural
recursion the kernel can evaluate.  Go standard-library helpers used by the
code (`strings.Contains`, `strings.Index`, `strings.HasSuffix`,
`strings.TrimSpace`, `strings.Split`, `strings.Replace`, `filepath.Join`)
are given executable models; the two regular expressions of `sln.go` are
embedded as explicit leftmost-match scanners over the character list.
-/

namespace VsExport

/-- The whitespace class of Go's regexp `\s` (RE2: space, tab, newline,
carriage return, form feed), also used to model `strings.TrimSpace`. -/
def isWS (c : Char) : Bool :=
  c = ' ' || c = '\t' || c = '\n' || c = '\r' || c = '\x0c'

/-- The prefix of `cs` before the first occurrence of `stop`. -/
def takeUntil (stop : Char) (cs : List Char) : List Char :=
  cs.takeWhile (fun c => c ≠ stop)

/-- The remainder of `cs` from the first occurrence of `stop` on. -/
def dropUntil (stop : Char) (cs : List Char) : List Char :=
  cs.dropWhile (fun c => c ≠ stop)

/-- Model of Go `strings.Contains` on character lists. -/
def containsSub (pat : List Char) : List Char → Bool
  | [] => pat.isEmpty
  | c :: t => pat.isPrefixOf (c :: t) || containsSub pat t

/-- Model of Go `strings.Index` on character lists: position of the first
occurrence of `pat`, `none` when absent (Go returns `-1`). -/
def firstIdxOfSub (pat : List Char) : List Char → Option Nat
  | [] => if pat.isEmpty then some 0 else none
  | c :: t =>
    if pat.isPrefixOf (c :: t) then some 0
    else (firstIdxOfSub pat t).map (· + 1)

/-- Model of Go `strings.TrimSpace` on character lists. -/
def trimL (cs : List Char) : List Char :=
  ((cs.dropWhile isWS).reverse.dropWhile isWS).reverse

/-- Model of Go `strings.Split(s, ";")` on character lists: splitting the
empty list yields one empty field, as in Go. -/
def splitSemi : List Char → List (List Char)
  | [] => [[]]
  | c :: t =>
    if c = ';' then [] :: splitSemi t
    else
      match splitSemi t with
      | [] => [[c]]
      | h :: r => (c :: h) :: r

/-- Model of Go `strings.Replace(s, pat, rep, -1)` (leftmost,
non-overlapping, all occurrences) for a non-empty pattern `p0 :: prest`.
(`sln.go` only replaces the non-empty patterns `"\\"` and
`"$(SolutionDir)"`.)  The recursion is structural on a fuel bound, always
instantiated with the haystack length, which each step strictly decreases. -/
def replaceLAux (p0 : Char) (prest rep : List Char) : Nat → List Char → List Char
  | 0, cs => cs
  | _ + 1, [] => []
  | fuel + 1, c :: t =>
    if (p0 :: prest).isPrefixOf (c :: t) then
      rep ++ replaceLAux p0 prest rep fuel (t.drop prest.length)
    else c :: replaceLAux p0 prest rep fuel t

/-- Replacement (`replaceLAux`) with sufficient fuel. -/
def replaceL (p0 : Char) (prest rep cs : List Char) : List Char :=
  replaceLAux p0 prest rep cs.length cs

/-- String-level wrapper for `containsSub`. -/
def strContains (s pat : String) : Bool := containsSub pat.data s.data

/-- String-level wrapper for `trimL` (Go `strings.TrimSpace`). -/
def strTrimSpace (s : String) : String := String.mk (trimL s.data)

/-- String-level wrapper for `replaceL` (Go `strings.Replace(s, pat, rep, -1)`);
the empty pattern (which `sln.go` never uses) is a no-op here. -/
def strReplace (s pat rep : String) : String :=
  match pat.data with
  | [] => s
  | p0 :: prest => String.mk (replaceL p0 prest rep.data s.data)

/-- Model of Go `strings.HasSuffix`. -/
def strHasSuffix (s suffix : String) : Bool :=
  suffix.data.isSuffixOf s.data

/-- Splitting a character list on a separator; splitting the empty list
yields one empty field, like Go `strings.Split`. -/
def splitOnChar (sep : Char) : List Char → List (List Char)
  | [] => [[]]
  | c :: t =>
    if c = sep then [] :: splitOnChar sep t
    else
      match splitOnChar sep t with
      | [] => [[c]]
      | h :: r => (c :: h) :: r

/-- The element loop of Go `filepath.Clean` for slash-separated paths: walk
the split elements keeping a stack (head = most recently kept element);
empty elements (from duplicated separators) and `.` elements are dropped,
`..` pops the preceding element unless the stack holds only `..` elements,
a `..` at the root is dropped, and a `..` at the start of a relative path
is kept. -/
def cleanStack (rooted : Bool) : List (List Char) → List (List Char) → List (List Char)
  | stack, [] => stack
  | stack, e :: rest =>
    if e = [] ∨ e = ['.'] then cleanStack rooted stack rest
    else if e = ['.', '.'] then
      match stack with
      | top :: stail =>
        if top = ['.', '.'] then cleanStack rooted (e :: stack) rest
        else cleanStack rooted stail rest
      | [] =>
        if rooted then cleanStack rooted [] rest
        else cleanStack rooted [e] rest
    else cleanStack rooted (e :: stack) rest

/-- Interleave the kept elements with single slashes. -/
def joinSegs : List (List Char) → List Char
  | [] => []
  | [e] => e
  | e :: rest => e ++ '/' :: joinSegs rest

/-- Model of Go `filepath.Clean` for slash-separated paths: collapse
duplicate separators, drop `.` elements, fold `..` elements lexically, and
return `.` for an empty result (or the bare root for a rooted one). -/
def cleanPath (s : String) : String :=
  match s.data with
  | [] => "."
  | cs =>
    let rooted := cs.head? = some '/'
    let core := joinSegs (cleanStack rooted [] (splitOnChar '/' cs)).reverse
    if rooted then String.mk ('/' :: core)
    else if core = [] then "." else String.mk core

/-- Model of Go `filepath.Join` for two slash-separated components: the
non-empty components are joined with a separator and the result is passed
through `Clean`, exactly as `path/filepath` does (two empty components
yield the empty string without cleaning).  Note that `Clean` makes the join
non-injective in the second component: `a.vcxproj` and `./a.vcxproj` join
to the same absolute path. -/
def filepathJoin (dir p : String) : String :=
  if dir = "" ∧ p = "" then ""
  else if dir = "" then cleanPath p
  else if p = "" then cleanPath dir
  else cleanPath (dir ++ "/" ++ p)

/-! ## The configuration-mapping regex

`sln.go` line 127 extracts mapping rows from the configuration subsection
with the regular expression

  (backslash-brace)([^#125;]+)(brace).([^.]+).(?:ActiveCfg|Build.0)\s*=\s*(.+?)(?:\r?\n|$)

embedded here as an explicit leftmost-match scanner.  One divergence is
deliberately not modelled: in RE2 the character class of the second
whitespace run can cross a line break when everything between the equals
sign and the end of the line is blank; the scanner below always bounds the
captured value by the current line, which is how every well-formed
solution document and every claim exercise it. -/

/-- A raw match of the configuration-row regex: `full` is the whole matched
text (Go `match[0]`, up to the line terminator, which cannot affect the
`Build.0` substring test), `guid`/`solutionConfig`/`projectConfig` are the
three capture groups (Go `match[1..3]`).  `projectConfig` is the raw value
segment after the equals sign; `sln.go` trims it before use. -/
structure ConfigMatch where
  full : List Char
  guid : List Char
  solutionConfig : List Char
  projectConfig : List Char
deriving DecidableEq

/-- The active-configuration suffix literal of the regex. -/
def activeCfgLit : List Char := "ActiveCfg".data

/-- The build-participation suffix literal of the regex. -/
def buildZeroLit : List Char := "Build.0".data

/-- Try to match the configuration-row regex with the match anchored at the
head of `cs`; on success return the match and the unscanned remainder. -/
def matchConfigAt : List Char → Option (ConfigMatch × List Char)
  | '{' :: r0 =>
    let guid := takeUntil '}' r0
    if guid.isEmpty then none else
    match dropUntil '}' r0 with
    | '}' :: '.' :: r1 =>
      let sol := takeUntil '.' r1
      if sol.isEmpty then none else
      match dropUntil '.' r1 with
      | '.' :: r2 =>
        let sfx :=
          if activeCfgLit.isPrefixOf r2 then some activeCfgLit
          else if buildZeroLit.isPrefixOf r2 then some buildZeroLit
          else none
        match sfx with
        | none => none
        | some lit =>
          let r3 := r2.drop lit.length
          let ws := r3.takeWhile isWS
          match r3.dropWhile isWS with
          | '=' :: r4 =>
            let value := takeUntil '\n' r4
            if value.isEmpty then none else
            some (⟨'{' :: guid ++ '}' :: '.' :: sol ++ '.' :: lit ++ ws ++ '=' :: value,
                   guid, sol, value⟩,
                  r4.drop value.length)
          | _ => none
      | _ => none
    | _ => none
  | _ => none

/-- Repeated leftmost matching of the configuration-row regex
(Go `FindAllStringSubmatch(..., -1)`): try each position from the left, and
after a match continue behind its value segment.  `fuel` only bounds the
recursion and is always instantiated with the list length. -/
def scanConfigAux : Nat → List Char → List ConfigMatch
  | 0, _ => []
  | _ + 1, [] => []
  | fuel + 1, c :: t =>
    match matchConfigAt (c :: t) with
    | some (m, rest) => m :: scanConfigAux fuel rest
    | none => scanConfigAux fuel t

/-- All matches of the configuration-row regex in `cs`, leftmost first. -/
def scanConfig (cs : List Char) : List ConfigMatch := scanConfigAux cs.length cs

/-! ## The project-reference regex

`sln.go` line 92 recognizes reference lines with the regular expression

  Project("(brace)[^#125;]+(brace)")\s*=\s*"[^"]+",\s*"([^"]+)",\s*"(brace)([^#125;]+)(brace)"

(two capture groups: the referenced path and the project GUID), embedded as
the same kind of leftmost-match scanner. -/

/-- A raw match of the project-reference regex: the two capture groups
(Go `match[1]` and `match[2]`). -/
structure ProjMatch where
  path : List Char
  guid : List Char
deriving DecidableEq

/-- Match a literal prefix and return the remainder. -/
def stripLit (lit cs : List Char) : Option (List Char) :=
  if lit.isPrefixOf cs then some (cs.drop lit.length) else none

/-- Try to match the project-reference regex anchored at the head of `cs`;
on success return the captures and the unscanned remainder. -/
def matchProjectAt (cs : List Char) : Option (ProjMatch × List Char) := do
  let r0 ← stripLit ("Project(\"".data ++ ['{']) cs
  let kind := takeUntil '}' r0
  if kind.isEmpty then none else do
  let r1 ← stripLit ('}' :: "\")".data) (r0.drop kind.length)
  let r2 ← stripLit ['='] (r1.dropWhile isWS)
  let r3 ← stripLit ['"'] (r2.dropWhile isWS)
  let name := takeUntil '"' r3
  if name.isEmpty then none else do
  let r4 ← stripLit ['"', ','] (r3.drop name.length)
  let r5 ← stripLit ['"'] (r4.dropWhile isWS)
  let path := takeUntil '"' r5
  if path.isEmpty then none else do
  let r6 ← stripLit ['"', ','] (r5.drop path.length)
  let r7 ← stripLit ['"', '{'] (r6.dropWhile isWS)
  let guid := takeUntil '}' r7
  if guid.isEmpty then none else do
  let r8 ← stripLit ['}', '"'] (r7.drop guid.length)
  some (⟨path, guid⟩, r8)

/-- Repeated leftmost matching of the project-reference regex. -/
def scanProjectsAux : Nat → List Char → List ProjMatch
  | 0, _ => []
  | _ + 1, [] => []
  | fuel + 1, c :: t =>
    match matchProjectAt (c :: t) with
    | some (m, rest) => m :: scanProjectsAux fuel rest
    | none => scanProjectsAux fuel t

/-- All matches of the project-reference regex in `cs`, leftmost first. -/
def scanProjects (cs : List Char) : List ProjMatch := scanProjectsAux cs.length cs

/-! ## Data model (`sln.go` lines 13-26) -/

/-- The mapping-row structure `ProjectConfigMapping` (`sln.go` lines 14-19). -/
structure ProjectConfigMapping where
  ProjectGUID : String
  SolutionConfig : String
  ProjectConfig : String
  ShouldBuild : Bool
deriving DecidableEq

/-- Modelled from the spec: the project object supplied by the external
project-loading collaborator (spec section 6).  `NewProject`,
`Project.FindSourceFiles` and `Project.FindConfig` live outside this
repository's `sln.go`; a `Project` here carries the data those calls
expose: the project's directory, its absolute path, its enumerated source
files, and the per-configuration lookup (`FindConfig name` yields the pair
`(includePaths, defines)` of semicolon-joined strings, or an error when the
configuration is unknown in the project's own data). -/
structure Project where
  ProjectDir : String
  ProjectPath : String
  SourceFiles : List String
  Config : String → Except String (String × String)

/-- The collaborator's source-file enumeration. -/
def Project.FindSourceFiles (p : Project) : List String := p.SourceFiles

/-- The collaborator's per-configuration include/define lookup. -/
def Project.FindConfig (p : Project) (conf : String) : Except String (String × String) :=
  p.Config conf

/-- One entry of the generated compilation database (fields `Dir`, `File`,
`Cmd` as consumed by `CompileCommandsJson`; the struct itself is declared
outside `sln.go`). -/
structure CompileCommand where
  Dir : String
  File : String
  Cmd : String
deriving DecidableEq

/-- The solution model `Sln` (`sln.go` lines 21-26).  Go's
`ProjectGUIDs map[string]string` is modelled as an association list in
first-insertion order with in-place value overwrite (`projInsert`); the
functions that iterate the map (`range`) take the traversal order as an
explicit argument where it could matter, since Go leaves it unspecified. -/
structure Sln where
  SolutionDir : String
  ProjectList : List Project
  ProjectGUIDs : List (String × String)
  ConfigMappings : List ProjectConfigMapping

/-! ## parseProjectReferences (`sln.go` lines 90-108) -/

/-- Go map insertion `tbl[k] = v` on the association list: the value of an
existing key is overwritten in place, a new key is appended. -/
def projInsert : List (String × String) → String → String → List (String × String)
  | [], k, v => [(k, v)]
  | (k0, v0) :: rest, k, v =>
    if k0 = k then (k0, v) :: rest else (k0, v0) :: projInsert rest k v

/-- The reference parser `parseProjectReferences` (`sln.go` lines 90-108): run the
project-reference regex over the document, keep the matches whose path ends
in `.vcxproj`, store each with its backslashes replaced by slashes, and
fail when the resulting table is empty. -/
def parseProjectReferences (content : String) : Except String (List (String × String)) :=
  let tbl := (scanProjects content.data).foldl (fun tbl m =>
    if strHasSuffix (String.mk m.path) ".vcxproj" then
      projInsert tbl (strReplace (String.mk m.path) "\\" "/") (String.mk m.guid)
    else tbl) []
  if tbl.isEmpty then .error "no project files found" else .ok tbl

/-! ## parseConfigurationMappings (`sln.go` lines 110-165) -/

/-- The start marker of the configuration subsection (`sln.go` line 113). -/
def configSectionStartMarker : List Char :=
  "GlobalSection(ProjectConfigurationPlatforms)".data

/-- The end marker of the configuration subsection (`sln.go` line 118). -/
def configSectionEndMarker : List Char := "EndGlobalSection".data

/-- The row a single raw match contributes (`sln.go` lines 132-135): the
value is trimmed, and build participation is a substring test for
`Build.0` over the whole matched text. -/
def rowOfMatch (m : ConfigMatch) : ProjectConfigMapping :=
  { ProjectGUID := String.mk m.guid
    SolutionConfig := String.mk m.solutionConfig
    ProjectConfig := String.mk (trimL m.projectConfig)
    ShouldBuild := containsSub buildZeroLit m.full }

/-- Merge-on-insert (`sln.go` lines 137-160): linear scan for an existing
row with the same `(ProjectGUID, SolutionConfig)` key; if found, `ShouldBuild`
becomes true when the new row's is, and `ProjectConfig` is taken from the new
row only when the existing one is empty; otherwise the row is appended. -/
def insertMapping : List ProjectConfigMapping → ProjectConfigMapping → List ProjectConfigMapping
  | [], row => [row]
  | m :: rest, row =>
    if m.ProjectGUID = row.ProjectGUID ∧ m.SolutionConfig = row.SolutionConfig then
      { m with
        ShouldBuild := m.ShouldBuild || row.ShouldBuild
        ProjectConfig := if m.ProjectConfig = "" then row.ProjectConfig else m.ProjectConfig
      } :: rest
    else m :: insertMapping rest row

/-- The match loop of `parseConfigurationMappings` (`sln.go` lines 130-162). -/
def processMatches (ms : List ConfigMatch) : List ProjectConfigMapping :=
  ms.foldl (fun tbl m => insertMapping tbl (rowOfMatch m)) []

/-- The mapping parser `parseConfigurationMappings` (`sln.go` lines 110-165): locate the
configuration subsection between its start marker and the next
`EndGlobalSection`; an absent start marker yields the empty table without
error, a start marker without a following end marker is a malformed
document, and otherwise the row regex is scanned within the subsection and
the matches are merged into the table. -/
def parseConfigurationMappings (content : String) : Except String (List ProjectConfigMapping) :=
  match firstIdxOfSub configSectionStartMarker content.data with
  | none => .ok []
  | some s =>
    let tail := content.data.drop s
    match firstIdxOfSub configSectionEndMarker tail with
    | none => .error "malformed configuration mappings section"
    | some e => .ok (processMatches (scanConfig (tail.take e)))

/-! ## NewSln (`sln.go` lines 28-57) -/

/-- The project-loading loop of `NewSln` (`sln.go` lines 47-53): load one
project per reference, in the given traversal order, aborting on the first
failure. -/
def loadProjects (loader : String → Except String Project) (dir : String) :
    List (String × String) → Except String (List Project)
  | [] => .ok []
  | kv :: rest =>
    match loader (filepathJoin dir kv.1) with
    | .error e => .error e
    | .ok pro =>
      match loadProjects loader dir rest with
      | .error e => .error e
      | .ok pros => .ok (pro :: pros)

/-- The constructor `NewSln` (`sln.go` lines 28-57).  Go derives the solution directory from
the argument path (`filepath.Abs` + `filepath.Dir`) and reads the document
from disk (`parseSolutionFile`, lines 59-88); both are inputs here.
`loader` is the external `NewProject` collaborator.  The reference table and
the mapping table are parsed in that order, then one project is loaded per
reference (the Go `range` over the map is taken in the table's canonical
order); any error aborts construction. -/
def NewSln (solutionDir : String) (content : String)
    (loader : String → Except String Project) : Except String Sln :=
  match parseProjectReferences content with
  | .error e => .error e
  | .ok guids =>
    match parseConfigurationMappings content with
    | .error e => .error e
    | .ok mappings =>
      match loadProjects loader solutionDir guids with
      | .error e => .error e
      | .ok pros =>
        .ok { SolutionDir := solutionDir, ProjectList := pros,
              ProjectGUIDs := guids, ConfigMappings := mappings }

/-! ## Configuration queries (`sln.go` lines 167-205) -/

/-- Go map lookup `tbl[k]` on the association list. -/
def lookupGUID (tbl : List (String × String)) (k : String) : Option String :=
  (tbl.find? (fun kv => kv.1 == k)).map (·.2)

/-- The path-keyed query `GetProjectConfig` (`sln.go` lines 168-185): look up the path's GUID
(error when unregistered), then return the first mapping row matching
`(GUID, solutionConfig)`, falling back to `solutionConfig` itself when no
row matches. -/
def Sln.GetProjectConfig (sln : Sln) (projectPath solutionConfig : String) :
    Except String String :=
  match lookupGUID sln.ProjectGUIDs projectPath with
  | none => .error ("project " ++ projectPath ++ " not found in the solution")
  | some projectGUID =>
    match sln.ConfigMappings.find?
        (fun m => m.ProjectGUID == projectGUID && m.SolutionConfig == solutionConfig) with
    | some m => .ok m.ProjectConfig
    | none => .ok solutionConfig

/-- The project-keyed query `GetProjectConfigByProject` (`sln.go` lines 188-205) with the Go map
`range` order made explicit: scan `order` for the first registered path
whose join with the solution directory equals the project's absolute path
(the not-found sentinel being the empty path, as in the Go code), fall back
to `solutionConfig` when none is found, and otherwise delegate to
`GetProjectConfig`. -/
def Sln.GetProjectConfigByProjectOrd (sln : Sln) (order : List (String × String))
    (pro : Project) (solutionConfig : String) : Except String String :=
  let projectPath :=
    match order.find? (fun kv => filepathJoin sln.SolutionDir kv.1 == pro.ProjectPath) with
    | some kv => kv.1
    | none => ""
  if projectPath = "" then .ok solutionConfig
  else sln.GetProjectConfig projectPath solutionConfig

/-- The project-keyed query with the canonical traversal order. -/
def Sln.GetProjectConfigByProject (sln : Sln) (pro : Project) (solutionConfig : String) :
    Except String String :=
  sln.GetProjectConfigByProjectOrd sln.ProjectGUIDs pro solutionConfig

/-! ## CompileCommandsJson (`sln.go` lines 213-265) -/

/-- Modelled from the spec: the external sanitization collaborator for
define lists (spec section 6), a pure map from a semicolon-joined raw
string to a cleaned one; the exact invalidity policy is external, and is
modelled as keeping every entry, matching the spec's end-to-end example in
which all entries survive. -/
def RemoveBadDefinition (s : String) : String := s

/-- Modelled from the spec: the external sanitization collaborator for
include lists (spec section 6), modelled as keeping every entry. -/
def RemoveBadInclude (s : String) : String := s

/-- The flag builder `preappend` (`sln.go` lines 256-265): split on semicolons and emit each
field prefixed with `flag` and suffixed with a single space.  (The Go
parameter is named `append`; it is renamed here to avoid shadowing the list
append.) -/
def preappend (sepedString : String) (flag : String) : String :=
  ((splitSemi sepedString.data).map String.mk).foldl
    (fun output v => output ++ (flag ++ v ++ " ")) ""

/-- The Go accumulation loop with early `return` on error: map `f` over the
list, stopping at the first error.  (Go returns the partial list alongside
the error; the partial list is dropped here, as its callers only consume it
on success.) -/
def mapE (f : α → Except ε β) : List α → Except ε (List β)
  | [] => .ok []
  | x :: xs =>
    match f x with
    | .error e => .error e
    | .ok y =>
      match mapE f xs with
      | .error e => .error e
      | .ok ys => .ok (y :: ys)

/-- The per-source-file body of `CompileCommandsJson` (`sln.go` lines
226-250): fetch the include/define data for the resolved configuration
(a failure aborts generation), substitute `$(SolutionDir)`, sanitize, turn
the groups into `-D`/`-I` flags, and compose the command string. -/
def compileOne (sln : Sln) (pro : Project) (projectConfig : String) (f : String) :
    Except String CompileCommand :=
  match pro.FindConfig projectConfig with
  | .error e => .error e
  | .ok (incRaw, defRaw) =>
    let incSubst := strReplace incRaw "$(SolutionDir)" sln.SolutionDir
    let defFlags := preappend (RemoveBadDefinition defRaw) "-D"
    let incFlags := preappend (RemoveBadInclude incSubst) "-I"
    .ok { Dir := pro.ProjectDir, File := f,
          Cmd := "clang-cl.exe " ++ defFlags ++ " " ++ incFlags ++ " -c " ++ f }

/-- The per-project configuration resolution of `CompileCommandsJson`
(`sln.go` lines 219-224): a resolution error degrades to the requested
configuration with a warning (the resolution in fact never fails). -/
def resolvedConfig (sln : Sln) (order : List (String × String)) (pro : Project)
    (conf : String) : String :=
  match sln.GetProjectConfigByProjectOrd order pro conf with
  | .ok c => c
  | .error _ => conf

/-- The generator `CompileCommandsJson` (`sln.go` lines 213-254) with the Go map `range`
order of the per-project configuration lookup made explicit: for each
loaded project, resolve its configuration, then emit one command per
enumerated source file. -/
def Sln.CompileCommandsJsonOrd (sln : Sln) (order : List (String × String))
    (conf : String) : Except String (List CompileCommand) :=
  (mapE (fun pro =>
      mapE (compileOne sln pro (resolvedConfig sln order pro conf))
        pro.FindSourceFiles)
    sln.ProjectList).map List.flatten

/-- The generator with the canonical traversal order. -/
def Sln.CompileCommandsJson (sln : Sln) (conf : String) :
    Except String (List CompileCommand) :=
  sln.CompileCommandsJsonOrd sln.ProjectGUIDs conf

/-! ## Basic lemmas about the string models -/

theorem string_mk_data (s : String) : String.mk s.data = s := rfl

theorem data_ne_nil (s : String) : s.data ≠ [] ↔ s ≠ "" := by
  constructor
  · intro h he
    exact h (by simp [he])
  · intro h he
    exact h (String.ext he)

theorem firstIdxOfSub_eq_none_iff (pat l : List Char) :
    firstIdxOfSub pat l = none ↔ containsSub pat l = false := by
  induction l with
  | nil =>
    by_cases h : pat.isEmpty <;> simp [firstIdxOfSub, containsSub, h]
  | cons c t ih =>
    by_cases h : pat.isPrefixOf (c :: t) <;>
      simp [firstIdxOfSub, containsSub, h, Option.map_eq_none', ih]

end VsExport

namespace VsExport

/-! ## C5: behavior on absent or unclosed configuration sections -/

/-- C5: for every solution document, if the configuration-section start
marker is absent then `parseConfigurationMappings` succeeds with an empty
mapping table; if the start marker occurs (first at position `s`) but
`EndGlobalSection` does not occur from there on, it returns a
malformed-document error, producing no mapping rows. -/
theorem parseConfigurationMappings_marker_behavior (content : String) :
    (containsSub configSectionStartMarker content.data = false →
      parseConfigurationMappings content = .ok []) ∧
    (∀ s, firstIdxOfSub configSectionStartMarker content.data = some s →
      containsSub configSectionEndMarker (content.data.drop s) = false →
      ∃ e, parseConfigurationMappings content = .error e) := by
  constructor
  · intro h
    have hn : firstIdxOfSub configSectionStartMarker content.data = none :=
      (firstIdxOfSub_eq_none_iff _ _).mpr h
    simp [parseConfigurationMappings, hn]
  · intro s hs hend
    have hn : firstIdxOfSub configSectionEndMarker (content.data.drop s) = none :=
      (firstIdxOfSub_eq_none_iff _ _).mpr hend
    refine ⟨"malformed configuration mappings section", ?_⟩
    simp [parseConfigurationMappings, hs, hn]

/-! ## C3: the path-keyed configuration query -/

theorem lookupGUID_eq_none_iff (tbl : List (String × String)) (k : String) :
    lookupGUID tbl k = none ↔ k ∉ tbl.map Prod.fst := by
  unfold lookupGUID
  rw [Option.map_eq_none', List.find?_eq_none]
  constructor
  · intro h hmem
    obtain ⟨kv, hkv, he⟩ := List.mem_map.mp hmem
    have hb : ¬(kv.1 == k) = true := h kv hkv
    exact hb (by simpa using he)
  · intro h kv hkv he
    exact h (List.mem_map.mpr ⟨kv, hkv, by simpa using he⟩)

/-- C3: `GetProjectConfig` fails exactly when the path is not a key of the
reference table; on a registered path it returns the matching mapping row's
`ProjectConfig` when one exists, and the requested solution configuration
unchanged (without error) when none does. -/
theorem GetProjectConfig_spec (sln : Sln) (path conf : String) :
    ((∃ e, sln.GetProjectConfig path conf = .error e) ↔
      path ∉ sln.ProjectGUIDs.map Prod.fst) ∧
    (∀ g, lookupGUID sln.ProjectGUIDs path = some g →
      (∀ m, sln.ConfigMappings.find?
          (fun m => m.ProjectGUID == g && m.SolutionConfig == conf) = some m →
        sln.GetProjectConfig path conf = .ok m.ProjectConfig) ∧
      (sln.ConfigMappings.find?
          (fun m => m.ProjectGUID == g && m.SolutionConfig == conf) = none →
        sln.GetProjectConfig path conf = .ok conf)) := by
  refine ⟨?_, ?_⟩
  · rw [← lookupGUID_eq_none_iff]
    constructor
    · rintro ⟨e, he⟩
      cases hl : lookupGUID sln.ProjectGUIDs path with
      | none => rfl
      | some g =>
        exfalso
        cases hf : sln.ConfigMappings.find?
            (fun m => m.ProjectGUID == g && m.SolutionConfig == conf) with
        | none => simp [Sln.GetProjectConfig, hl, hf] at he
        | some m => simp [Sln.GetProjectConfig, hl, hf] at he
    · intro hl
      exact ⟨"project " ++ path ++ " not found in the solution",
        by simp [Sln.GetProjectConfig, hl]⟩
  · intro g hg
    constructor
    · intro m hm
      simp [Sln.GetProjectConfig, hg, hm]
    · intro hm
      simp [Sln.GetProjectConfig, hg, hm]

/-- Witness for C3 at a concrete model: an unregistered path errors, a
registered path with a matching row resolves through it, and a registered
path without a matching row falls back to the requested configuration. -/
theorem GetProjectConfig_spec_witness :
    (∃ e, (Sln.mk "/s" [] [("a.vcxproj", "G1")]
        [⟨"G1", "Debug|x64", "Debug|Win32", false⟩]).GetProjectConfig
        "missing.vcxproj" "Debug|x64" = .error e) ∧
    ((Sln.mk "/s" [] [("a.vcxproj", "G1")]
        [⟨"G1", "Debug|x64", "Debug|Win32", false⟩]).GetProjectConfig
        "a.vcxproj" "Debug|x64" = .ok "Debug|Win32") ∧
    ((Sln.mk "/s" [] [("a.vcxproj", "G1")]
        [⟨"G1", "Debug|x64", "Debug|Win32", false⟩]).GetProjectConfig
        "a.vcxproj" "Release|x64" = .ok "Release|x64") := by
  refine ⟨?_, ?_, ?_⟩
  · exact (GetProjectConfig_spec _ "missing.vcxproj" "Debug|x64").1.mpr (by decide)
  · exact ((GetProjectConfig_spec _ "a.vcxproj" "Debug|x64").2 "G1" (by decide)).1
      ⟨"G1", "Debug|x64", "Debug|Win32", false⟩ (by decide)
  · exact ((GetProjectConfig_spec _ "a.vcxproj" "Release|x64").2 "G1" (by decide)).2
      (by decide)

/-! ## C2: the merge-on-insert law for configuration mappings -/

theorem insertMapping_mem_key (tbl : List ProjectConfigMapping)
    (row : ProjectConfigMapping) :
    ∀ b ∈ insertMapping tbl row,
      (∃ a ∈ tbl, a.ProjectGUID = b.ProjectGUID ∧ a.SolutionConfig = b.SolutionConfig) ∨
      (row.ProjectGUID = b.ProjectGUID ∧ row.SolutionConfig = b.SolutionConfig) := by
  induction tbl with
  | nil =>
    intro b hb
    simp only [insertMapping, List.mem_singleton] at hb
    subst hb
    exact Or.inr ⟨rfl, rfl⟩
  | cons m rest ih =>
    intro b hb
    by_cases hk : m.ProjectGUID = row.ProjectGUID ∧ m.SolutionConfig = row.SolutionConfig
    · rw [insertMapping, if_pos hk] at hb
      rcases List.mem_cons.mp hb with hb | hb
      · subst hb
        exact Or.inl ⟨m, List.mem_cons_self .., ⟨rfl, rfl⟩⟩
      · exact Or.inl ⟨b, List.mem_cons_of_mem _ hb, ⟨rfl, rfl⟩⟩
    · rw [insertMapping, if_neg hk] at hb
      rcases List.mem_cons.mp hb with hb | hb
      · subst hb
        exact Or.inl ⟨b, List.mem_cons_self .., ⟨rfl, rfl⟩⟩
      · rcases ih b hb with ⟨a, ha, hae⟩ | h
        · exact Or.inl ⟨a, List.mem_cons_of_mem _ ha, hae⟩
        · exact Or.inr h

theorem insertMapping_pairwise (tbl : List ProjectConfigMapping)
    (row : ProjectConfigMapping)
    (h : tbl.Pairwise
      (fun a b => ¬(a.ProjectGUID = b.ProjectGUID ∧ a.SolutionConfig = b.SolutionConfig))) :
    (insertMapping tbl row).Pairwise
      (fun a b => ¬(a.ProjectGUID = b.ProjectGUID ∧ a.SolutionConfig = b.SolutionConfig)) := by
  induction tbl with
  | nil => simp [insertMapping]
  | cons m rest ih =>
    rcases List.pairwise_cons.mp h with ⟨hm, hrest⟩
    by_cases hk : m.ProjectGUID = row.ProjectGUID ∧ m.SolutionConfig = row.SolutionConfig
    · rw [insertMapping, if_pos hk]
      exact List.pairwise_cons.mpr ⟨fun b hb => hm b hb, hrest⟩
    · rw [insertMapping, if_neg hk]
      refine List.pairwise_cons.mpr ⟨?_, ih hrest⟩
      intro b hb
      rcases insertMapping_mem_key rest row b hb with ⟨a, ha, ha1, ha2⟩ | ⟨h1, h2⟩
      · intro ⟨e1, e2⟩
        exact hm a ha ⟨e1.trans ha1.symm, e2.trans ha2.symm⟩
      · intro ⟨e1, e2⟩
        exact hk ⟨e1.trans h1.symm, e2.trans h2.symm⟩

theorem processMatches_fold_pairwise (ms : List ConfigMatch)
    (tbl : List ProjectConfigMapping)
    (h : tbl.Pairwise
      (fun a b => ¬(a.ProjectGUID = b.ProjectGUID ∧ a.SolutionConfig = b.SolutionConfig))) :
    (ms.foldl (fun tbl m => insertMapping tbl (rowOfMatch m)) tbl).Pairwise
      (fun a b => ¬(a.ProjectGUID = b.ProjectGUID ∧ a.SolutionConfig = b.SolutionConfig)) := by
  induction ms generalizing tbl with
  | nil => exact h
  | cons m rest ih => exact ih _ (insertMapping_pairwise _ _ h)

/-- C2: (a) the parsed mapping table never holds two rows with the same
`(ProjectGUID, SolutionConfig)` key, and (b) merging two raw matches with
the same key yields exactly one row whose `ShouldBuild` is the disjunction
of the two rows' build-participation tests and whose `ProjectConfig` is the
first row's trimmed value unless that value is empty (a later value never
overwrites an earlier non-empty one); instantiating the two matches in
either order shows the order-dependence of the merged value. -/
theorem configMapping_merge_law :
    (∀ ms : List ConfigMatch, (processMatches ms).Pairwise
      (fun a b => ¬(a.ProjectGUID = b.ProjectGUID ∧ a.SolutionConfig = b.SolutionConfig))) ∧
    (∀ m1 m2 : ConfigMatch, m1.guid = m2.guid → m1.solutionConfig = m2.solutionConfig →
      processMatches [m1, m2] =
        [{ ProjectGUID := String.mk m1.guid
           SolutionConfig := String.mk m1.solutionConfig
           ProjectConfig :=
             if String.mk (trimL m1.projectConfig) = "" then String.mk (trimL m2.projectConfig)
             else String.mk (trimL m1.projectConfig)
           ShouldBuild :=
             containsSub buildZeroLit m1.full || containsSub buildZeroLit m2.full }]) := by
  constructor
  · intro ms
    exact processMatches_fold_pairwise ms [] (List.Pairwise.nil)
  · intro m1 m2 hg hs
    simp [processMatches, insertMapping, rowOfMatch, hg, hs]

/-- Witness for C2: the spec's merge example, an active-configuration row
with value `Debug|x64` and a build-participation row with value
`Release|x64` for the same key, processed in both orders. -/
theorem configMapping_merge_law_witness :
    (processMatches
        [⟨"{A}.Debug|x64.ActiveCfg = Debug|x64".data, "A".data, "Debug|x64".data,
          " Debug|x64".data⟩,
         ⟨"{A}.Debug|x64.Build.0 = Release|x64".data, "A".data, "Debug|x64".data,
          " Release|x64".data⟩] =
      [⟨"A", "Debug|x64", "Debug|x64", true⟩]) ∧
    (processMatches
        [⟨"{A}.Debug|x64.Build.0 = Release|x64".data, "A".data, "Debug|x64".data,
          " Release|x64".data⟩,
         ⟨"{A}.Debug|x64.ActiveCfg = Debug|x64".data, "A".data, "Debug|x64".data,
          " Debug|x64".data⟩] =
      [⟨"A", "Debug|x64", "Release|x64", true⟩]) := by
  constructor
  · rw [configMapping_merge_law.2 _ _ (by decide) (by decide)]
    decide
  · rw [configMapping_merge_law.2 _ _ (by decide) (by decide)]
    decide

/-! ## C9: build participation decided by a substring test on the whole match -/

theorem takeWhile_append_stop (p : Char → Bool) (l1 : List Char) (c : Char)
    (l2 : List Char) (h1 : ∀ x ∈ l1, p x = true) (h2 : p c = false) :
    (l1 ++ c :: l2).takeWhile p = l1 := by
  induction l1 with
  | nil => simp [List.takeWhile_cons, h2]
  | cons a t ih =>
    have ha : p a = true := h1 a (List.mem_cons_self ..)
    simp only [List.cons_append, List.takeWhile_cons, ha, if_true]
    rw [ih (fun x hx => h1 x (List.mem_cons_of_mem _ hx))]

theorem dropWhile_append_stop (p : Char → Bool) (l1 : List Char) (c : Char)
    (l2 : List Char) (h1 : ∀ x ∈ l1, p x = true) (h2 : p c = false) :
    (l1 ++ c :: l2).dropWhile p = c :: l2 := by
  induction l1 with
  | nil => simp [List.dropWhile_cons, h2]
  | cons a t ih =>
    have ha : p a = true := h1 a (List.mem_cons_self ..)
    simp only [List.cons_append, List.dropWhile_cons, ha, if_true]
    exact ih (fun x hx => h1 x (List.mem_cons_of_mem _ hx))

theorem takeWhile_of_all (p : Char → Bool) (l : List Char)
    (h : ∀ x ∈ l, p x = true) : l.takeWhile p = l := by
  induction l with
  | nil => rfl
  | cons a t ih =>
    simp only [List.takeWhile_cons, h a (List.mem_cons_self ..), if_true]
    rw [ih (fun x hx => h x (List.mem_cons_of_mem _ hx))]

theorem containsSub_append_right (pat l1 l2 : List Char)
    (h : containsSub pat l2 = true) : containsSub pat (l1 ++ l2) = true := by
  induction l1 with
  | nil => exact h
  | cons c t ih => simp [containsSub, ih]

theorem scanConfigAux_nil (fuel : Nat) : scanConfigAux fuel [] = [] := by
  cases fuel <;> rfl

theorem scanConfig_single (cs : List Char) (m : ConfigMatch)
    (h : matchConfigAt cs = some (m, [])) : scanConfig cs = [m] := by
  cases cs with
  | nil => simp [matchConfigAt] at h
  | cons c t =>
    show scanConfigAux (t.length + 1) (c :: t) = [m]
    rw [scanConfigAux, h]
    simp [scanConfigAux_nil]

/-- The configuration-row matcher on a whole line whose suffix is the
active-configuration marker: given a brace-free GUID, a dot-free solution
configuration and a newline-free value, the match consumes the entire line,
captures the three groups, and its `full` text covers the value segment. -/
theorem matchConfigAt_active_line (g sc rest : List Char)
    (hg : g ≠ []) (hg2 : ∀ x ∈ g, x ≠ '}')
    (hsc : sc ≠ []) (hsc2 : ∀ x ∈ sc, x ≠ '.')
    (hrest : ∀ x ∈ rest, x ≠ '\n') :
    matchConfigAt
        ('{' :: (g ++ '}' :: '.' :: (sc ++ '.' :: (activeCfgLit ++ ' ' :: '=' :: ' ' :: rest)))) =
      some (⟨'{' :: g ++ '}' :: '.' :: sc ++ '.' :: activeCfgLit ++ [' '] ++ '=' :: ' ' :: rest,
             g, sc, ' ' :: rest⟩, []) := by
  have hgb : ∀ x ∈ g, (decide (x ≠ '}')) = true := fun x hx => by
    simpa using hg2 x hx
  have hscb : ∀ x ∈ sc, (decide (x ≠ '.')) = true := fun x hx => by
    simpa using hsc2 x hx
  have htu1 : takeUntil '}' (g ++ '}' :: '.' :: (sc ++ '.' :: (activeCfgLit ++ ' ' :: '=' :: ' ' :: rest))) = g :=
    takeWhile_append_stop _ _ _ _ hgb (by decide)
  have hdu1 : dropUntil '}' (g ++ '}' :: '.' :: (sc ++ '.' :: (activeCfgLit ++ ' ' :: '=' :: ' ' :: rest))) =
      '}' :: '.' :: (sc ++ '.' :: (activeCfgLit ++ ' ' :: '=' :: ' ' :: rest)) :=
    dropWhile_append_stop _ _ _ _ hgb (by decide)
  have htu2 : takeUntil '.' (sc ++ '.' :: (activeCfgLit ++ ' ' :: '=' :: ' ' :: rest)) = sc :=
    takeWhile_append_stop _ _ _ _ hscb (by decide)
  have hdu2 : dropUntil '.' (sc ++ '.' :: (activeCfgLit ++ ' ' :: '=' :: ' ' :: rest)) =
      '.' :: (activeCfgLit ++ ' ' :: '=' :: ' ' :: rest) :=
    dropWhile_append_stop _ _ _ _ hscb (by decide)
  have hpre : activeCfgLit.isPrefixOf (activeCfgLit ++ ' ' :: '=' :: ' ' :: rest) = true :=
    List.isPrefixOf_iff_prefix.mpr (List.prefix_append _ _)
  have hdrop : (activeCfgLit ++ ' ' :: '=' :: ' ' :: rest).drop activeCfgLit.length =
      ' ' :: '=' :: ' ' :: rest := List.drop_left _ _
  have hge : g.isEmpty = false := by
    cases g with
    | nil => exact absurd rfl hg
    | cons a t => rfl
  have hsce : sc.isEmpty = false := by
    cases sc with
    | nil => exact absurd rfl hsc
    | cons a t => rfl
  have hrb : ∀ x ∈ rest, (decide (x ≠ '\n')) = true := fun x hx => by
    simpa using hrest x hx
  have hval : takeUntil '\n' (' ' :: rest) = ' ' :: rest := by
    unfold takeUntil
    exact takeWhile_of_all _ _ (by
      intro x hx
      rcases List.mem_cons.mp hx with h | h
      · subst h; decide
      · exact hrb x h)
  rw [matchConfigAt]
  rw [htu1, hdu1]
  rw [hge]
  simp only [Bool.false_eq_true, if_false]
  rw [htu2, hdu2, hsce]
  simp only [Bool.false_eq_true, if_false, hpre, if_true, hdrop]
  have hws1 : (' ' :: '=' :: ' ' :: rest).takeWhile isWS = [' '] := by
    rw [List.takeWhile_cons, if_pos (by decide : isWS ' ' = true),
      List.takeWhile_cons, if_neg (by decide : ¬isWS '=' = true)]
  have hws2 : (' ' :: '=' :: ' ' :: rest).dropWhile isWS = '=' :: ' ' :: rest := by
    rw [List.dropWhile_cons, if_pos (by decide : isWS ' ' = true),
      List.dropWhile_cons, if_neg (by decide : ¬isWS '=' = true)]
  rw [hws1, hws2]
  simp only [hval, List.isEmpty_cons, Bool.false_eq_true, if_false, List.drop_length]

/-- C9: an active-configuration row (`ActiveCfg` suffix) whose matched line
contains the substring `Build.0` anywhere — here in the right-hand-side
value — is stored with `ShouldBuild = true`, because build participation is
a substring test over the whole matched text. -/
theorem activeCfg_row_with_build_marker (guid solCfg rhs : String)
    (h1 : guid ≠ "") (h2 : '}' ∉ guid.data)
    (h3 : solCfg ≠ "") (h4 : '.' ∉ solCfg.data)
    (h5 : '\n' ∉ rhs.data)
    (h6 : containsSub buildZeroLit rhs.data = true) :
    processMatches
        (scanConfig ("\x7b" ++ guid ++ "\x7d." ++ solCfg ++ ".ActiveCfg = " ++ rhs).data) =
      [{ ProjectGUID := guid, SolutionConfig := solCfg,
         ProjectConfig := strTrimSpace rhs, ShouldBuild := true }] := by
  have hdata : ("\x7b" ++ guid ++ "\x7d." ++ solCfg ++ ".ActiveCfg = " ++ rhs).data =
      '{' :: (guid.data ++ '}' :: '.' ::
        (solCfg.data ++ '.' :: (activeCfgLit ++ ' ' :: '=' :: ' ' :: rhs.data))) := by
    simp [String.data_append, activeCfgLit, List.append_assoc]
  have hm := matchConfigAt_active_line guid.data solCfg.data rhs.data
    ((data_ne_nil guid).mpr h1) (fun x hx hxe => h2 (hxe ▸ hx))
    ((data_ne_nil solCfg).mpr h3) (fun x hx hxe => h4 (hxe ▸ hx))
    (fun x hx hxe => h5 (hxe ▸ hx))
  rw [hdata, scanConfig_single _ _ hm]
  have hfull : ('{' :: guid.data ++ '}' :: '.' :: solCfg.data ++ '.' :: activeCfgLit ++
      [' '] ++ '=' :: ' ' :: rhs.data) =
      ('{' :: guid.data ++ '}' :: '.' :: solCfg.data ++ '.' :: activeCfgLit ++
        [' '] ++ ['=', ' ']) ++ rhs.data := by
    simp [List.append_assoc]
  have hbuild : containsSub buildZeroLit
      ('{' :: guid.data ++ '}' :: '.' :: solCfg.data ++ '.' :: activeCfgLit ++
        [' '] ++ '=' :: ' ' :: rhs.data) = true := by
    rw [hfull]
    exact containsSub_append_right _ _ _ h6
  have htrim : trimL (' ' :: rhs.data) = trimL rhs.data := by
    simp [trimL, List.dropWhile_cons, isWS]
  simp only [processMatches, List.foldl, insertMapping, rowOfMatch, hbuild, htrim]
  rfl

/-- Witness for C9: the concrete active-configuration line
`(brace)G(brace).Debug|x64.ActiveCfg = Build.0|Odd` parses to one row with
`ShouldBuild = true`. -/
theorem activeCfg_row_with_build_marker_witness :
    processMatches
        (scanConfig ("\x7b" ++ "G" ++ "\x7d." ++ "Debug|x64" ++ ".ActiveCfg = " ++ "Build.0|Odd").data) =
      [{ ProjectGUID := "G", SolutionConfig := "Debug|x64",
         ProjectConfig := strTrimSpace "Build.0|Odd", ShouldBuild := true }] :=
  activeCfg_row_with_build_marker "G" "Debug|x64" "Build.0|Odd"
    (by decide) (by decide) (by decide) (by decide) (by decide) (by decide)

/-! ## A concrete example model (the spec's end-to-end scenario)

One solution referencing `lib\app.vcxproj` with identifier `ABCD` and the
mapping row `(brace)ABCD(brace).Debug|x64.ActiveCfg = Debug|Win32`; the
loaded project enumerates `main.cpp` with includes `inc1;inc2` and defines
`FOO;BAR` under configuration `Debug|Win32`. -/

/-- The loaded project of the end-to-end example. -/
def exampleProject : Project :=
  { ProjectDir := "lib", ProjectPath := "/s/lib/app.vcxproj",
    SourceFiles := ["main.cpp"],
    Config := fun c =>
      if c = "Debug|Win32" then .ok ("inc1;inc2", "FOO;BAR")
      else .error "missing configuration" }

/-- A loader that succeeds exactly on the example project's path. -/
def exampleLoader (p : String) : Except String Project :=
  if p = "/s/lib/app.vcxproj" then .ok exampleProject else .error "load failure"

/-- The example solution document. -/
def exampleContent : String :=
  "Project(\"{K1}\") = \"app\", \"lib\\app.vcxproj\", \"{ABCD}\"\nEndProject\nGlobal\n\tGlobalSection(ProjectConfigurationPlatforms) = postSolution\n\t\t{ABCD}.Debug|x64.ActiveCfg = Debug|Win32\n\tEndGlobalSection\nEndGlobal\n"

/-- The model the example constructs. -/
def exampleSln : Sln :=
  { SolutionDir := "/s", ProjectList := [exampleProject],
    ProjectGUIDs := [("lib/app.vcxproj", "ABCD")],
    ConfigMappings := [⟨"ABCD", "Debug|x64", "Debug|Win32", false⟩] }

/-! ## C8: no partial model on project-load failure -/

theorem loadProjects_error (loader : String → Except String Project)
    (dir : String) (l : List (String × String))
    (h : ∃ kv ∈ l, ∃ e, loader (filepathJoin dir kv.1) = .error e) :
    ∃ e, loadProjects loader dir l = .error e := by
  induction l with
  | nil => simp at h
  | cons kv rest ih =>
    cases hl : loader (filepathJoin dir kv.1) with
    | error e => exact ⟨e, by rw [loadProjects, hl]⟩
    | ok pro =>
      obtain ⟨kv', hkv', e', he'⟩ := h
      rcases List.mem_cons.mp hkv' with rfl | hmem
      · rw [hl] at he'
        exact absurd he' (by simp)
      · obtain ⟨e, he⟩ := ih ⟨kv', hmem, e', he'⟩
        exact ⟨e, by rw [loadProjects, hl, he]⟩

theorem loadProjects_ok (loader : String → Except String Project)
    (dir : String) (l : List (String × String)) (pros : List Project)
    (h : loadProjects loader dir l = .ok pros) :
    pros.length = l.length ∧
    ∀ kv ∈ l, ∃ pro ∈ pros, loader (filepathJoin dir kv.1) = .ok pro := by
  induction l generalizing pros with
  | nil =>
    rw [loadProjects] at h
    cases h
    simp
  | cons kv rest ih =>
    rw [loadProjects] at h
    cases hl : loader (filepathJoin dir kv.1) with
    | error e => rw [hl] at h; exact absurd h (by simp)
    | ok pro =>
      rw [hl] at h
      cases hrest : loadProjects loader dir rest with
      | error e => rw [hrest] at h; exact absurd h (by simp)
      | ok pros' =>
        rw [hrest] at h
        cases h
        obtain ⟨hlen, hmem⟩ := ih pros' hrest
        refine ⟨by simp [hlen], ?_⟩
        intro kv' hkv'
        rcases List.mem_cons.mp hkv' with rfl | hm
        · exact ⟨pro, List.mem_cons_self .., hl⟩
        · obtain ⟨p, hp, hpe⟩ := hmem kv' hm
          exact ⟨p, List.mem_cons_of_mem _ hp, hpe⟩

/-- C8: if loading any referenced project fails, `NewSln` returns an error
and no model is produced; conversely a successfully constructed model loads
one project per retained reference — its project list never covers only a
subset of the references. -/
theorem NewSln_no_partial_model (dir content : String)
    (loader : String → Except String Project) :
    (∀ guids, parseProjectReferences content = .ok guids →
      (∃ kv ∈ guids, ∃ e, loader (filepathJoin dir kv.1) = .error e) →
      ∃ e, NewSln dir content loader = .error e) ∧
    (∀ sln, NewSln dir content loader = .ok sln →
      sln.ProjectList.length = sln.ProjectGUIDs.length ∧
      ∀ kv ∈ sln.ProjectGUIDs, ∃ pro ∈ sln.ProjectList,
        loader (filepathJoin dir kv.1) = .ok pro) := by
  constructor
  · intro guids hparse hfail
    obtain ⟨e, he⟩ := loadProjects_error loader dir guids hfail
    cases hpm : parseConfigurationMappings content with
    | error e2 => exact ⟨e2, by simp [NewSln, hparse, hpm]⟩
    | ok mappings => exact ⟨e, by simp [NewSln, hparse, hpm, he]⟩
  · intro sln h
    rw [NewSln] at h
    cases hparse : parseProjectReferences content with
    | error e => simp [hparse] at h
    | ok guids =>
      cases hpm : parseConfigurationMappings content with
      | error e => simp [hparse, hpm] at h
      | ok mappings =>
        cases hload : loadProjects loader dir guids with
        | error e => simp [hparse, hpm, hload] at h
        | ok pros =>
          simp only [hparse, hpm, hload, Except.ok.injEq] at h
          subst h
          exact loadProjects_ok loader dir guids pros hload

set_option maxRecDepth 100000 in
/-- Witness for C8: with an always-failing loader construction errors, and
with the example loader the constructed model has exactly one project for
its one reference. -/
theorem NewSln_no_partial_model_witness :
    (∃ e, NewSln "/s" exampleContent (fun _ => .error "boom") = .error e) ∧
    exampleSln.ProjectList.length = exampleSln.ProjectGUIDs.length := by
  constructor
  · exact (NewSln_no_partial_model "/s" exampleContent (fun _ => .error "boom")).1
      [("lib/app.vcxproj", "ABCD")] (by rfl)
      ⟨("lib/app.vcxproj", "ABCD"), List.mem_cons_self .., "boom", rfl⟩
  · exact ((NewSln_no_partial_model "/s" exampleContent exampleLoader).2
      exampleSln (by rfl)).1

/-! ## Lemmas about the reference table fold (for C4 and C7) -/

theorem projInsert_ne_nil (tbl : List (String × String)) (k v : String) :
    projInsert tbl k v ≠ [] := by
  cases tbl with
  | nil => simp [projInsert]
  | cons kv rest =>
    rw [projInsert]
    by_cases hk : kv.1 = k
    · obtain ⟨k0, v0⟩ := kv
      simp_all [projInsert]
    · obtain ⟨k0, v0⟩ := kv
      simp_all [projInsert]

theorem projInsert_mem (tbl : List (String × String)) (k v : String) :
    ∀ kv ∈ projInsert tbl k v, kv ∈ tbl ∨ kv.1 = k := by
  induction tbl with
  | nil =>
    intro kv hkv
    simp only [projInsert, List.mem_singleton] at hkv
    subst hkv
    exact Or.inr rfl
  | cons p rest ih =>
    obtain ⟨k0, v0⟩ := p
    intro kv hkv
    by_cases hk : k0 = k
    · rw [projInsert, if_pos hk] at hkv
      rcases List.mem_cons.mp hkv with rfl | hm
      · exact Or.inr hk
      · exact Or.inl (List.mem_cons_of_mem _ hm)
    · rw [projInsert, if_neg hk] at hkv
      rcases List.mem_cons.mp hkv with rfl | hm
      · exact Or.inl (List.mem_cons_self ..)
      · rcases ih kv hm with h | h
        · exact Or.inl (List.mem_cons_of_mem _ h)
        · exact Or.inr h

theorem projInsert_key_mono (tbl : List (String × String)) (k v k' : String)
    (h : k' ∈ tbl.map Prod.fst) : k' ∈ (projInsert tbl k v).map Prod.fst := by
  induction tbl with
  | nil => simp at h
  | cons p rest ih =>
    obtain ⟨k0, v0⟩ := p
    by_cases hk : k0 = k
    · rw [projInsert, if_pos hk]
      simpa using (by simpa using h)
    · rw [projInsert, if_neg hk]
      rcases (by simpa using h : k' = k0 ∨ k' ∈ rest.map Prod.fst) with rfl | hm
      · simp
      · simpa using Or.inr (by simpa using ih hm)

theorem projInsert_key_mem (tbl : List (String × String)) (k v : String) :
    k ∈ (projInsert tbl k v).map Prod.fst := by
  induction tbl with
  | nil => simp [projInsert]
  | cons p rest ih =>
    obtain ⟨k0, v0⟩ := p
    by_cases hk : k0 = k
    · rw [projInsert, if_pos hk]
      simp [hk]
    · rw [projInsert, if_neg hk]
      simpa using Or.inr (by simpa using ih)

theorem refFold_eq_nil (ms : List ProjMatch) (tbl : List (String × String)) :
    ms.foldl (fun tbl m =>
        if strHasSuffix (String.mk m.path) ".vcxproj" then
          projInsert tbl (strReplace (String.mk m.path) "\\" "/") (String.mk m.guid)
        else tbl) tbl = [] ↔
      tbl = [] ∧ ∀ m ∈ ms, strHasSuffix (String.mk m.path) ".vcxproj" = false := by
  induction ms generalizing tbl with
  | nil => simp
  | cons m rest ih =>
    rw [List.foldl_cons]
    by_cases hs : strHasSuffix (String.mk m.path) ".vcxproj" = true
    · rw [if_pos hs, ih]
      simp [projInsert_ne_nil, hs, List.forall_mem_cons]
    · rw [if_neg hs, ih]
      simp only [Bool.not_eq_true] at hs
      simp [hs, List.forall_mem_cons]

theorem refFold_mem (ms : List ProjMatch) (tbl : List (String × String)) :
    ∀ kv ∈ ms.foldl (fun tbl m =>
        if strHasSuffix (String.mk m.path) ".vcxproj" then
          projInsert tbl (strReplace (String.mk m.path) "\\" "/") (String.mk m.guid)
        else tbl) tbl,
      kv ∈ tbl ∨ ∃ m ∈ ms, strHasSuffix (String.mk m.path) ".vcxproj" = true ∧
        kv.1 = strReplace (String.mk m.path) "\\" "/" := by
  induction ms generalizing tbl with
  | nil =>
    intro kv hkv
    exact Or.inl hkv
  | cons m rest ih =>
    intro kv hkv
    rw [List.foldl_cons] at hkv
    by_cases hs : strHasSuffix (String.mk m.path) ".vcxproj" = true
    · rw [if_pos hs] at hkv
      rcases ih _ kv hkv with h | ⟨m', hm', hs', he'⟩
      · rcases projInsert_mem _ _ _ kv h with h2 | h2
        · exact Or.inl h2
        · exact Or.inr ⟨m, List.mem_cons_self .., hs, h2⟩
      · exact Or.inr ⟨m', List.mem_cons_of_mem _ hm', hs', he'⟩
    · rw [if_neg hs] at hkv
      rcases ih _ kv hkv with h | ⟨m', hm', hs', he'⟩
      · exact Or.inl h
      · exact Or.inr ⟨m', List.mem_cons_of_mem _ hm', hs', he'⟩

theorem refFold_key_mono (ms : List ProjMatch) (tbl : List (String × String))
    (k' : String) (h : k' ∈ tbl.map Prod.fst) :
    k' ∈ (ms.foldl (fun tbl m =>
        if strHasSuffix (String.mk m.path) ".vcxproj" then
          projInsert tbl (strReplace (String.mk m.path) "\\" "/") (String.mk m.guid)
        else tbl) tbl).map Prod.fst := by
  induction ms generalizing tbl with
  | nil => exact h
  | cons m rest ih =>
    rw [List.foldl_cons]
    by_cases hs : strHasSuffix (String.mk m.path) ".vcxproj" = true
    · rw [if_pos hs]
      exact ih _ (projInsert_key_mono _ _ _ _ h)
    · rw [if_neg hs]
      exact ih _ h

theorem refFold_key_complete (ms : List ProjMatch) (tbl : List (String × String))
    (m : ProjMatch) (hm : m ∈ ms)
    (hs : strHasSuffix (String.mk m.path) ".vcxproj" = true) :
    strReplace (String.mk m.path) "\\" "/" ∈
      (ms.foldl (fun tbl m =>
        if strHasSuffix (String.mk m.path) ".vcxproj" then
          projInsert tbl (strReplace (String.mk m.path) "\\" "/") (String.mk m.guid)
        else tbl) tbl).map Prod.fst := by
  induction ms generalizing tbl with
  | nil => simp at hm
  | cons m0 rest ih =>
    rw [List.foldl_cons]
    rcases List.mem_cons.mp hm with rfl | hmem
    · rw [if_pos hs]
      exact refFold_key_mono rest _ _ (projInsert_key_mem _ _ _)
    · exact ih _ hmem

/-! ## Lemmas about backslash normalization (for C4 and C7) -/

theorem replaceLAux_ne_nil (p0 : Char) (prest : List Char) (r0 : Char)
    (rs : List Char) (fuel : Nat) (cs : List Char) (h : cs ≠ []) :
    replaceLAux p0 prest (r0 :: rs) fuel cs ≠ [] := by
  cases fuel with
  | zero => exact h
  | succ f =>
    cases cs with
    | nil => exact absurd rfl h
    | cons c t =>
      rw [replaceLAux]
      by_cases hp : (p0 :: prest).isPrefixOf (c :: t) = true
      · rw [if_pos hp]
        simp
      · rw [if_neg hp]
        simp

theorem replaceLAux_no_backslash (fuel : Nat) (cs : List Char)
    (h : cs.length ≤ fuel) : '\\' ∉ replaceLAux '\\' [] ['/'] fuel cs := by
  induction fuel generalizing cs with
  | zero =>
    have : cs = [] := List.length_eq_zero.mp (Nat.le_zero.mp h)
    subst this
    simp [replaceLAux]
  | succ f ih =>
    cases cs with
    | nil => simp [replaceLAux]
    | cons c t =>
      rw [replaceLAux]
      by_cases hp : (('\\' : Char) :: []).isPrefixOf (c :: t) = true
      · rw [if_pos hp]
        intro hmem
        rcases List.mem_append.mp hmem with hmem | hmem
        · simp at hmem
        · have hlen : (t.drop 0).length ≤ f := by
            simpa using Nat.le_of_succ_le_succ (by simpa using h)
          exact ih _ hlen hmem
      · rw [if_neg hp]
        intro hmem
        rcases List.mem_cons.mp hmem with he | hmem
        · apply hp
          rw [← he]
          simp [List.isPrefixOf]
        · exact ih t (Nat.le_of_succ_le_succ (by simpa using h)) hmem

theorem strReplace_backslash_eq (s : String) :
    strReplace s "\\" "/" = String.mk (replaceLAux '\\' [] ['/'] s.data.length s.data) := rfl

theorem strReplace_backslash_ne_empty (s : String) (h : s ≠ "") :
    strReplace s "\\" "/" ≠ "" := by
  rw [strReplace_backslash_eq]
  intro he
  have hd : replaceLAux '\\' [] ['/'] s.data.length s.data = [] := by
    simpa [String.ext_iff] using he
  exact replaceLAux_ne_nil '\\' [] '/' [] _ _ ((data_ne_nil s).mpr h) hd

theorem strReplace_backslash_free (s : String) :
    '\\' ∉ (strReplace s "\\" "/").data := by
  rw [strReplace_backslash_eq]
  exact replaceLAux_no_backslash _ _ (Nat.le_refl _)

/-! ## Every scanned reference path is non-empty (for C7) -/

theorem matchProjectAt_path_ne_nil (cs : List Char) (m : ProjMatch)
    (rest : List Char) (h : matchProjectAt cs = some (m, rest)) : m.path ≠ [] := by
  unfold matchProjectAt at h
  simp only [bind, Option.bind_eq_some, Option.ite_none_left_eq_some,
    Option.some.injEq, Prod.mk.injEq, List.isEmpty_eq_true] at h
  obtain ⟨r0, h0, hk, r1, h1, r2, h2, r3, h3, hn, r4, h4, r5, h5, hp,
    r6, h6, r7, h7, hg, r8, h8, hm, hr⟩ := h
  subst hm
  exact hp

theorem scanProjectsAux_path_ne_nil (fuel : Nat) (cs : List Char) :
    ∀ m ∈ scanProjectsAux fuel cs, m.path ≠ [] := by
  induction fuel generalizing cs with
  | zero => simp [scanProjectsAux]
  | succ f ih =>
    cases cs with
    | nil => simp [scanProjectsAux]
    | cons c t =>
      intro m hm
      rw [scanProjectsAux] at hm
      cases hmt : matchProjectAt (c :: t) with
      | none =>
        rw [hmt] at hm
        exact ih t m hm
      | some pr =>
        rw [hmt] at hm
        rcases List.mem_cons.mp hm with rfl | hmem
        · exact matchProjectAt_path_ne_nil _ _ _ hmt
        · exact ih pr.2 m hmem

theorem parseProjectReferences_keys_ne_empty (content : String)
    (tbl : List (String × String)) (h : parseProjectReferences content = .ok tbl) :
    ∀ kv ∈ tbl, kv.1 ≠ "" := by
  intro kv hkv
  rw [parseProjectReferences] at h
  set fold := (scanProjects content.data).foldl (fun tbl m =>
    if strHasSuffix (String.mk m.path) ".vcxproj" then
      projInsert tbl (strReplace (String.mk m.path) "\\" "/") (String.mk m.guid)
    else tbl) [] with hfold
  by_cases he : fold.isEmpty = true
  · rw [if_pos he] at h
    exact absurd h (by simp)
  · rw [if_neg he] at h
    have htbl : fold = tbl := by
      injection h
    rw [← htbl, hfold] at hkv
    rcases refFold_mem _ _ kv hkv with hc | ⟨m, hm, _, hkey⟩
    · simp at hc
    · rw [hkey]
      apply strReplace_backslash_ne_empty
      intro hmk
      have : m.path = [] := by
        simpa [String.ext_iff] using hmk
      exact scanProjectsAux_path_ne_nil _ _ m hm this

/-! ## C4: the reference parser -/

/-- C4: `parseProjectReferences` fails exactly when no match of the
reference regex has a path ending in `.vcxproj` (that is, when the table is
empty after filtering); every stored entry's key is the backslash-to-slash
normalization of some retained match's path (hence holds no backslash), and
every retained match's normalized path is stored. -/
theorem parseProjectReferences_spec (content : String) :
    ((∃ e, parseProjectReferences content = .error e) ↔
      ∀ m ∈ scanProjects content.data,
        strHasSuffix (String.mk m.path) ".vcxproj" = false) ∧
    (∀ tbl, parseProjectReferences content = .ok tbl →
      (∀ kv ∈ tbl,
        (∃ m ∈ scanProjects content.data,
          strHasSuffix (String.mk m.path) ".vcxproj" = true ∧
          kv.1 = strReplace (String.mk m.path) "\\" "/") ∧ '\\' ∉ kv.1.data) ∧
      (∀ m ∈ scanProjects content.data,
        strHasSuffix (String.mk m.path) ".vcxproj" = true →
        strReplace (String.mk m.path) "\\" "/" ∈ tbl.map Prod.fst)) := by
  rw [parseProjectReferences]
  set fold := (scanProjects content.data).foldl (fun tbl m =>
    if strHasSuffix (String.mk m.path) ".vcxproj" then
      projInsert tbl (strReplace (String.mk m.path) "\\" "/") (String.mk m.guid)
    else tbl) [] with hfold
  by_cases he : fold.isEmpty = true
  · rw [if_pos he]
    have hnil : fold = [] := List.isEmpty_iff.mp he
    rw [hfold] at hnil
    constructor
    · constructor
      · intro _
        exact ((refFold_eq_nil (scanProjects content.data) []).mp hnil).2
      · intro _
        exact ⟨"no project files found", rfl⟩
    · intro tbl h
      exact absurd h (by simp)
  · rw [if_neg he]
    constructor
    · constructor
      · rintro ⟨e, he2⟩
        exact absurd he2 (by simp)
      · intro hall
        exfalso
        apply he
        apply List.isEmpty_iff.mpr
        rw [hfold]
        exact (refFold_eq_nil (scanProjects content.data) []).mpr ⟨rfl, hall⟩
    · intro tbl h
      have htbl : fold = tbl := by injection h
      subst htbl
      constructor
      · intro kv hkv
        rw [hfold] at hkv
        rcases refFold_mem _ _ kv hkv with hc | ⟨m, hm, hs, hkey⟩
        · simp at hc
        · refine ⟨⟨m, hm, hs, hkey⟩, ?_⟩
          rw [hkey]
          exact strReplace_backslash_free _
      · intro m hm hs
        rw [hfold]
        exact refFold_key_complete _ _ m hm hs

set_option maxRecDepth 100000 in
/-- Witness for C4: the example document's single reference is stored with
its backslash normalized away, and a document with no references fails. -/
theorem parseProjectReferences_spec_witness :
    ('\\' ∉ ("lib/app.vcxproj" : String).data) ∧
    (∃ e, parseProjectReferences "no references here" = .error e) := by
  constructor
  · have h := ((parseProjectReferences_spec exampleContent).2
      [("lib/app.vcxproj", "ABCD")] (by rfl)).1 ("lib/app.vcxproj", "ABCD")
      (List.mem_singleton.mpr rfl)
    exact h.2
  · apply (parseProjectReferences_spec "no references here").1.mpr
    intro m hm
    rw [show scanProjects ("no references here" : String).data = [] from rfl] at hm
    exact absurd hm (List.not_mem_nil m)

/-! ## C7: the project-keyed configuration query never fails -/

/-- C7: `GetProjectConfigByProject` never returns an error: when no
registered path joined to the solution directory equals the project's
absolute path it returns the requested configuration unchanged, and when
the scan finds a registered path (which in every parsed reference table is
non-empty, the last conjunct) it delegates to the path-keyed query with
that registered path, so the not-found error is never observed. -/
theorem GetProjectConfigByProject_no_error (sln : Sln) (pro : Project) (conf : String) :
    (∃ s, sln.GetProjectConfigByProject pro conf = .ok s) ∧
    ((∀ kv ∈ sln.ProjectGUIDs, filepathJoin sln.SolutionDir kv.1 ≠ pro.ProjectPath) →
      sln.GetProjectConfigByProject pro conf = .ok conf) ∧
    (∀ kv, sln.ProjectGUIDs.find?
        (fun kv => filepathJoin sln.SolutionDir kv.1 == pro.ProjectPath) = some kv →
      kv.1 ≠ "" →
      sln.GetProjectConfigByProject pro conf = sln.GetProjectConfig kv.1 conf ∧
      kv.1 ∈ sln.ProjectGUIDs.map Prod.fst) ∧
    (∀ content tbl, parseProjectReferences content = .ok tbl →
      ∀ kv ∈ tbl, kv.1 ≠ "") := by
  have hdeleg : ∀ kv, sln.ProjectGUIDs.find?
      (fun kv => filepathJoin sln.SolutionDir kv.1 == pro.ProjectPath) = some kv →
      kv.1 ≠ "" →
      sln.GetProjectConfigByProject pro conf = sln.GetProjectConfig kv.1 conf := by
    intro kv hf hne
    rw [Sln.GetProjectConfigByProject, Sln.GetProjectConfigByProjectOrd, hf]
    simp only [if_neg hne]
  have hok : ∀ path, path ∈ sln.ProjectGUIDs.map Prod.fst →
      ∃ s, sln.GetProjectConfig path conf = .ok s := by
    intro path hmem
    obtain ⟨kv, hkv, hfst⟩ := List.mem_map.mp hmem
    cases hl : lookupGUID sln.ProjectGUIDs path with
    | none =>
      exact absurd ((lookupGUID_eq_none_iff _ _).mp hl) (by simp [hmem])
    | some g =>
      cases hf : sln.ConfigMappings.find?
          (fun m => m.ProjectGUID == g && m.SolutionConfig == conf) with
      | none => exact ⟨conf, by simp [Sln.GetProjectConfig, hl, hf]⟩
      | some m => exact ⟨m.ProjectConfig, by simp [Sln.GetProjectConfig, hl, hf]⟩
  refine ⟨?_, ?_, ?_, parseProjectReferences_keys_ne_empty⟩
  · cases hf : sln.ProjectGUIDs.find?
        (fun kv => filepathJoin sln.SolutionDir kv.1 == pro.ProjectPath) with
    | none =>
      exact ⟨conf, by simp [Sln.GetProjectConfigByProject,
        Sln.GetProjectConfigByProjectOrd, hf]⟩
    | some kv =>
      by_cases hne : kv.1 = ""
      · exact ⟨conf, by simp [Sln.GetProjectConfigByProject,
          Sln.GetProjectConfigByProjectOrd, hf, hne]⟩
      · obtain ⟨s, hs⟩ := hok kv.1
          (List.mem_map.mpr ⟨kv, List.mem_of_find?_eq_some hf, rfl⟩)
        exact ⟨s, by rw [hdeleg kv hf hne, hs]⟩
  · intro hall
    have hf : sln.ProjectGUIDs.find?
        (fun kv => filepathJoin sln.SolutionDir kv.1 == pro.ProjectPath) = none := by
      apply List.find?_eq_none.mpr
      intro kv hkv
      simp only [beq_iff_eq]
      exact hall kv hkv
    simp [Sln.GetProjectConfigByProject, Sln.GetProjectConfigByProjectOrd, hf]
  · intro kv hf hne
    exact ⟨hdeleg kv hf hne,
      List.mem_map.mpr ⟨kv, List.mem_of_find?_eq_some hf, rfl⟩⟩

/-- Witness for C7: on the example model the query resolves the example
project without error and delegates to the registered path, while a foreign
project falls back to the requested configuration. -/
theorem GetProjectConfigByProject_no_error_witness :
    (exampleSln.GetProjectConfigByProject exampleProject "Debug|x64" =
      .ok "Debug|Win32") ∧
    (exampleSln.GetProjectConfigByProject
        { ProjectDir := "x", ProjectPath := "/elsewhere/x.vcxproj",
          SourceFiles := [], Config := fun _ => .error "none" } "Debug|x64" =
      .ok "Debug|x64") := by
  constructor
  · have h := ((GetProjectConfigByProject_no_error exampleSln exampleProject
      "Debug|x64").2.2.1 ("lib/app.vcxproj", "ABCD") (by rfl) (by decide)).1
    rw [h]
    rfl
  · exact (GetProjectConfigByProject_no_error exampleSln _ "Debug|x64").2.1
      (by
        intro kv hkv
        rcases List.mem_singleton.mp hkv with rfl
        decide)

/-! ## C10: `ShouldBuild` never influences any observable result -/

/-- The build-participation-free part of a mapping row. -/
def stripBuild (m : ProjectConfigMapping) : String × String × String :=
  (m.ProjectGUID, m.SolutionConfig, m.ProjectConfig)

theorem find?_stripBuild (l1 l2 : List ProjectConfigMapping)
    (h : l1.map stripBuild = l2.map stripBuild) (g c : String) :
    (l1.find? (fun m => m.ProjectGUID == g && m.SolutionConfig == c)).map
        (fun m => m.ProjectConfig) =
      (l2.find? (fun m => m.ProjectGUID == g && m.SolutionConfig == c)).map
        (fun m => m.ProjectConfig) := by
  induction l1 generalizing l2 with
  | nil =>
    cases l2 with
    | nil => rfl
    | cons b t => simp at h
  | cons a t ih =>
    cases l2 with
    | nil => simp at h
    | cons b t2 =>
      simp only [List.map_cons, List.cons.injEq] at h
      obtain ⟨hab, ht⟩ := h
      simp only [stripBuild, Prod.mk.injEq] at hab
      obtain ⟨h1, h2, h3⟩ := hab
      by_cases hp : (a.ProjectGUID == g && a.SolutionConfig == c) = true
      · simp only [List.find?_cons, ← h1, ← h2, hp, cond_true, Option.map_some']
        simp [h3]
      · have hf : (a.ProjectGUID == g && a.SolutionConfig == c) = false := by
          simpa using hp
        simp only [List.find?_cons, ← h1, ← h2, hf, cond_false]
        exact ih t2 ht

theorem GetProjectConfig_stripBuild (s1 s2 : Sln)
    (hguids : s1.ProjectGUIDs = s2.ProjectGUIDs)
    (hmaps : s1.ConfigMappings.map stripBuild = s2.ConfigMappings.map stripBuild)
    (path conf : String) :
    s1.GetProjectConfig path conf = s2.GetProjectConfig path conf := by
  cases hl : lookupGUID s2.ProjectGUIDs path with
  | none => simp [Sln.GetProjectConfig, hguids, hl]
  | some g =>
    have hfind := find?_stripBuild _ _ hmaps g conf
    cases hf1 : s1.ConfigMappings.find?
        (fun m => m.ProjectGUID == g && m.SolutionConfig == conf) with
    | none =>
      cases hf2 : s2.ConfigMappings.find?
          (fun m => m.ProjectGUID == g && m.SolutionConfig == conf) with
      | none => simp [Sln.GetProjectConfig, hguids, hl, hf1, hf2]
      | some m2 => rw [hf1, hf2] at hfind; exact absurd hfind (by simp)
    | some m1 =>
      cases hf2 : s2.ConfigMappings.find?
          (fun m => m.ProjectGUID == g && m.SolutionConfig == conf) with
      | none => rw [hf1, hf2] at hfind; exact absurd hfind (by simp)
      | some m2 =>
        have hcfg : m1.ProjectConfig = m2.ProjectConfig := by
          rw [hf1, hf2] at hfind
          simpa using hfind
        simp [Sln.GetProjectConfig, hguids, hl, hf1, hf2, hcfg]

theorem GetProjectConfigByProjectOrd_stripBuild (s1 s2 : Sln)
    (o : List (String × String))
    (hdir : s1.SolutionDir = s2.SolutionDir)
    (hguids : s1.ProjectGUIDs = s2.ProjectGUIDs)
    (hmaps : s1.ConfigMappings.map stripBuild = s2.ConfigMappings.map stripBuild)
    (pro : Project) (conf : String) :
    s1.GetProjectConfigByProjectOrd o pro conf =
      s2.GetProjectConfigByProjectOrd o pro conf := by
  rw [Sln.GetProjectConfigByProjectOrd, Sln.GetProjectConfigByProjectOrd, hdir]
  cases hf : o.find? (fun kv => filepathJoin s2.SolutionDir kv.1 == pro.ProjectPath) with
  | none => rfl
  | some kv =>
    by_cases hne : kv.1 = ""
    · simp [hne]
    · simp only [if_neg hne]
      exact GetProjectConfig_stripBuild s1 s2 hguids hmaps kv.1 conf

theorem mapE_congr {α β : Type} (f g : α → Except String β) (l : List α)
    (h : ∀ x ∈ l, f x = g x) : mapE f l = mapE g l := by
  induction l with
  | nil => rfl
  | cons x xs ih =>
    rw [mapE, mapE, h x (List.mem_cons_self ..),
      ih (fun y hy => h y (List.mem_cons_of_mem _ hy))]

theorem compileOne_stripBuild (s1 s2 : Sln) (hdir : s1.SolutionDir = s2.SolutionDir)
    (pro : Project) (cfg f : String) :
    compileOne s1 pro cfg f = compileOne s2 pro cfg f := by
  rw [compileOne, compileOne, hdir]

/-- C10: the `ShouldBuild` field of the mapping rows never influences any
observable result: two models identical except for the `ShouldBuild` values
of their mapping rows agree on `GetProjectConfig`,
`GetProjectConfigByProject` and `CompileCommandsJson` at every input. -/
theorem shouldBuild_noninterference (s1 s2 : Sln)
    (hdir : s1.SolutionDir = s2.SolutionDir)
    (hlist : s1.ProjectList = s2.ProjectList)
    (hguids : s1.ProjectGUIDs = s2.ProjectGUIDs)
    (hmaps : s1.ConfigMappings.map stripBuild = s2.ConfigMappings.map stripBuild) :
    (∀ path conf, s1.GetProjectConfig path conf = s2.GetProjectConfig path conf) ∧
    (∀ pro conf, s1.GetProjectConfigByProject pro conf =
      s2.GetProjectConfigByProject pro conf) ∧
    (∀ conf, s1.CompileCommandsJson conf = s2.CompileCommandsJson conf) := by
  refine ⟨fun path conf => GetProjectConfig_stripBuild s1 s2 hguids hmaps path conf,
    fun pro conf => ?_, fun conf => ?_⟩
  · rw [Sln.GetProjectConfigByProject, Sln.GetProjectConfigByProject, hguids]
    exact GetProjectConfigByProjectOrd_stripBuild s1 s2 _ hdir hguids hmaps pro conf
  · rw [Sln.CompileCommandsJson, Sln.CompileCommandsJson,
      Sln.CompileCommandsJsonOrd, Sln.CompileCommandsJsonOrd, hlist, hguids]
    congr 1
    apply mapE_congr
    intro pro _
    have hres : resolvedConfig s1 s2.ProjectGUIDs pro conf =
        resolvedConfig s2 s2.ProjectGUIDs pro conf := by
      rw [resolvedConfig, resolvedConfig,
        GetProjectConfigByProjectOrd_stripBuild s1 s2 _ hdir hguids hmaps pro conf]
    rw [hres]
    apply mapE_congr
    intro f _
    exact compileOne_stripBuild s1 s2 hdir pro _ f

set_option maxRecDepth 100000 in
/-- Witness for C10: flipping the example model's `ShouldBuild` flag leaves
all three observable results unchanged at concrete inputs. -/
theorem shouldBuild_noninterference_witness :
    (exampleSln.GetProjectConfig "lib/app.vcxproj" "Debug|x64" =
      (Sln.mk "/s" [exampleProject] [("lib/app.vcxproj", "ABCD")]
        [⟨"ABCD", "Debug|x64", "Debug|Win32", true⟩]).GetProjectConfig
        "lib/app.vcxproj" "Debug|x64") ∧
    (exampleSln.CompileCommandsJson "Debug|x64" =
      (Sln.mk "/s" [exampleProject] [("lib/app.vcxproj", "ABCD")]
        [⟨"ABCD", "Debug|x64", "Debug|Win32", true⟩]).CompileCommandsJson
        "Debug|x64") := by
  have h := shouldBuild_noninterference exampleSln
    (Sln.mk "/s" [exampleProject] [("lib/app.vcxproj", "ABCD")]
      [⟨"ABCD", "Debug|x64", "Debug|Win32", true⟩])
    rfl rfl rfl (by decide)
  exact ⟨h.1 "lib/app.vcxproj" "Debug|x64", h.2.2 "Debug|x64"⟩

/-! ## C6: generation is deterministic (independent of map iteration order) -/

theorem find?_perm_of_unique {α : Type} (p : α → Bool) (l l' : List α)
    (hperm : l.Perm l')
    (huniq : ∀ a ∈ l, ∀ b ∈ l, p a = true → p b = true → a = b) :
    l.find? p = l'.find? p := by
  cases hf : l.find? p with
  | none =>
    have hall := List.find?_eq_none.mp hf
    apply (List.find?_eq_none.mpr _).symm
    intro x hx
    exact hall x (hperm.mem_iff.mpr hx)
  | some a =>
    have ha : a ∈ l := List.mem_of_find?_eq_some hf
    have hpa : p a = true := List.find?_some hf
    cases hf' : l'.find? p with
    | none =>
      have hall := List.find?_eq_none.mp hf'
      exact absurd hpa (hall a (hperm.mem_iff.mp ha))
    | some b =>
      have hb : b ∈ l := hperm.mem_iff.mpr (List.mem_of_find?_eq_some hf')
      have hpb : p b = true := List.find?_some hf'
      rw [huniq a ha b hb hpa hpb]

theorem GetProjectConfigByProjectOrd_perm (sln : Sln)
    (o : List (String × String)) (pro : Project) (conf : String)
    (hinj : ∀ a ∈ sln.ProjectGUIDs, ∀ b ∈ sln.ProjectGUIDs,
      filepathJoin sln.SolutionDir a.1 = filepathJoin sln.SolutionDir b.1 → a = b)
    (hperm : o.Perm sln.ProjectGUIDs) :
    sln.GetProjectConfigByProjectOrd o pro conf =
      sln.GetProjectConfigByProject pro conf := by
  have hfind : o.find? (fun kv => filepathJoin sln.SolutionDir kv.1 == pro.ProjectPath) =
      sln.ProjectGUIDs.find?
        (fun kv => filepathJoin sln.SolutionDir kv.1 == pro.ProjectPath) := by
    apply find?_perm_of_unique _ _ _ hperm
    intro a ha b hb hpa hpb
    exact hinj a (hperm.mem_iff.mp ha) b (hperm.mem_iff.mp hb)
      ((beq_iff_eq.mp hpa).trans (beq_iff_eq.mp hpb).symm)
  rw [Sln.GetProjectConfigByProject, Sln.GetProjectConfigByProjectOrd,
    Sln.GetProjectConfigByProjectOrd, hfind]

/-- C6 (amended): generation over an unmodified model is deterministic —
independent of the (unspecified) iteration order of the Go
path-to-identifier map, the only nondeterminism in a fixed model —
provided no two distinct registered references join-and-clean to the same
absolute project path.  Without that proviso the claim fails: `Clean` maps
distinct retained keys such as `a.vcxproj` and `./a.vcxproj` to the same
absolute path, and the two runs can then resolve a project through either
identifier (see the counterexample). -/
theorem CompileCommandsJson_deterministic (sln : Sln) (conf : String)
    (hinj : ∀ a ∈ sln.ProjectGUIDs, ∀ b ∈ sln.ProjectGUIDs,
      filepathJoin sln.SolutionDir a.1 = filepathJoin sln.SolutionDir b.1 → a = b)
    (o1 o2 : List (String × String))
    (h1 : o1.Perm sln.ProjectGUIDs) (h2 : o2.Perm sln.ProjectGUIDs) :
    sln.CompileCommandsJsonOrd o1 conf = sln.CompileCommandsJsonOrd o2 conf := by
  rw [Sln.CompileCommandsJsonOrd, Sln.CompileCommandsJsonOrd]
  congr 1
  apply mapE_congr
  intro pro _
  have hres : resolvedConfig sln o1 pro conf = resolvedConfig sln o2 pro conf := by
    rw [resolvedConfig, resolvedConfig,
      GetProjectConfigByProjectOrd_perm sln o1 pro conf hinj h1,
      GetProjectConfigByProjectOrd_perm sln o2 pro conf hinj h2]
  rw [hres]

set_option maxRecDepth 100000 in
/-- Witness for C6: a two-project model whose registered paths join to
distinct absolute paths generates the same command sequence under both
iteration orders of its reference map. -/
theorem CompileCommandsJson_deterministic_witness :
    (Sln.mk "/s" [exampleProject]
        [("lib/app.vcxproj", "ABCD"), ("other.vcxproj", "EFGH")]
        [⟨"ABCD", "Debug|x64", "Debug|Win32", false⟩]).CompileCommandsJsonOrd
      [("other.vcxproj", "EFGH"), ("lib/app.vcxproj", "ABCD")] "Debug|x64" =
    (Sln.mk "/s" [exampleProject]
        [("lib/app.vcxproj", "ABCD"), ("other.vcxproj", "EFGH")]
        [⟨"ABCD", "Debug|x64", "Debug|Win32", false⟩]).CompileCommandsJsonOrd
      [("lib/app.vcxproj", "ABCD"), ("other.vcxproj", "EFGH")] "Debug|x64" := by
  exact CompileCommandsJson_deterministic _ "Debug|x64" (by decide) _ _
    (by decide) (by decide)

/-! ### The collision counterexample for C6

A solution referencing both `a.vcxproj` and `./a.vcxproj` — two distinct
map keys that both survive the `.vcxproj` filter — joined to the solution
directory gives the same absolute path `/s/a.vcxproj`, so both keys match
the loaded project and the map iteration order decides which identifier
(and hence which configuration mapping) resolves it. -/

/-- The project both colliding references load. -/
def collidingProject : Project :=
  { ProjectDir := "d", ProjectPath := "/s/a.vcxproj",
    SourceFiles := ["m.cpp"],
    Config := fun c => .ok ("", c) }

/-- A loader succeeding exactly on the colliding absolute path. -/
def collidingLoader (p : String) : Except String Project :=
  if p = "/s/a.vcxproj" then .ok collidingProject else .error "load failure"

/-- A solution document with the two colliding references and a different
active configuration for each identifier. -/
def collidingContent : String :=
  "Project(\"{K1}\") = \"a\", \"a.vcxproj\", \"{G1}\"\nProject(\"{K1}\") = \"a2\", \"./a.vcxproj\", \"{G2}\"\nGlobalSection(ProjectConfigurationPlatforms)\n\t{G1}.Debug|x64.ActiveCfg = CfgOne\n\t{G2}.Debug|x64.ActiveCfg = CfgTwo\nEndGlobalSection\n"

/-- The model the colliding document constructs. -/
def collidingSln : Sln :=
  { SolutionDir := "/s", ProjectList := [collidingProject, collidingProject],
    ProjectGUIDs := [("a.vcxproj", "G1"), ("./a.vcxproj", "G2")],
    ConfigMappings := [⟨"G1", "Debug|x64", "CfgOne", false⟩,
                       ⟨"G2", "Debug|x64", "CfgTwo", false⟩] }

set_option maxRecDepth 100000 in
/-- Counterexample for C6: the colliding model is constructed by `NewSln`
from a concrete document, the reversed reference order is a permutation of
its map, and running generation under the two iteration orders of the same
unmodified model yields different command sequences. -/
theorem CompileCommandsJson_deterministic_counterexample :
    (NewSln "/s" collidingContent collidingLoader = .ok collidingSln) ∧
    (List.Perm [(("./a.vcxproj" : String), ("G2" : String)), ("a.vcxproj", "G1")]
      collidingSln.ProjectGUIDs) ∧
    (collidingSln.CompileCommandsJson "Debug|x64" =
      .ok [⟨"d", "m.cpp", "clang-cl.exe -DCfgOne  -I  -c m.cpp"⟩,
           ⟨"d", "m.cpp", "clang-cl.exe -DCfgOne  -I  -c m.cpp"⟩]) ∧
    (collidingSln.CompileCommandsJsonOrd
        [("./a.vcxproj", "G2"), ("a.vcxproj", "G1")] "Debug|x64" =
      .ok [⟨"d", "m.cpp", "clang-cl.exe -DCfgTwo  -I  -c m.cpp"⟩,
           ⟨"d", "m.cpp", "clang-cl.exe -DCfgTwo  -I  -c m.cpp"⟩]) ∧
    ([(⟨"d", "m.cpp", "clang-cl.exe -DCfgOne  -I  -c m.cpp"⟩ : CompileCommand),
      ⟨"d", "m.cpp", "clang-cl.exe -DCfgOne  -I  -c m.cpp"⟩] ≠
     [⟨"d", "m.cpp", "clang-cl.exe -DCfgTwo  -I  -c m.cpp"⟩,
      ⟨"d", "m.cpp", "clang-cl.exe -DCfgTwo  -I  -c m.cpp"⟩]) := by
  exact ⟨by rfl, by decide, by rfl, by rfl, by decide⟩

/-! ## C1: the shape of the generated command strings -/

theorem mapE_ok_mem {α β : Type} (f : α → Except String β) (xs : List α)
    (ys : List β) (h : mapE f xs = .ok ys) :
    ∀ y ∈ ys, ∃ x ∈ xs, f x = .ok y := by
  induction xs generalizing ys with
  | nil =>
    rw [mapE] at h
    cases h
    simp
  | cons x xs ih =>
    rw [mapE] at h
    cases hf : f x with
    | error e => rw [hf] at h; exact absurd h (by simp)
    | ok y0 =>
      rw [hf] at h
      cases hm : mapE f xs with
      | error e => rw [hm] at h; exact absurd h (by simp)
      | ok ys0 =>
        rw [hm] at h
        cases h
        intro y hy
        rcases List.mem_cons.mp hy with rfl | hy'
        · exact ⟨x, List.mem_cons_self .., hf⟩
        · obtain ⟨x', hx', hfx'⟩ := ih ys0 hm y hy'
          exact ⟨x', List.mem_cons_of_mem _ hx', hfx'⟩

set_option maxRecDepth 100000 in
/-- C1 (corrected): every generated entry's command is composed as the
compiler name followed by a space, the `-D`-prefixed defines each suffixed
with a single space, one further space, the `-I`-prefixed includes each
suffixed with a single space, one further space, then `-c`, a space and the
source file path — the flag groups built by `preappend` end in a trailing
space, so two consecutive spaces separate the define group from the include
group and the include group from `-c`.  On the spec's end-to-end example
the command is exactly
`clang-cl.exe -DFOO -DBAR<two spaces>-Iinc1 -Iinc2<two spaces>-c main.cpp`,
not the single-spaced string the claim asserts. -/
theorem compileCommand_shape :
    (∀ (sln : Sln) (conf : String) (cmds : List CompileCommand),
      sln.CompileCommandsJson conf = .ok cmds →
      ∀ c ∈ cmds, ∃ pro ∈ sln.ProjectList, ∃ f ∈ pro.FindSourceFiles,
        ∃ incRaw defRaw,
        pro.FindConfig (resolvedConfig sln sln.ProjectGUIDs pro conf) =
          .ok (incRaw, defRaw) ∧
        c = { Dir := pro.ProjectDir, File := f,
              Cmd := "clang-cl.exe " ++ preappend (RemoveBadDefinition defRaw) "-D"
                ++ " " ++
                preappend (RemoveBadInclude
                  (strReplace incRaw "$(SolutionDir)" sln.SolutionDir)) "-I"
                ++ " -c " ++ f }) ∧
    ((do
        let s ← NewSln "/s" exampleContent exampleLoader
        s.CompileCommandsJson "Debug|x64" : Except String (List CompileCommand)) =
      .ok [⟨"lib", "main.cpp",
        "clang-cl.exe -DFOO -DBAR  -Iinc1 -Iinc2  -c main.cpp"⟩]) := by
  constructor
  · intro sln conf cmds h c hc
    rw [Sln.CompileCommandsJson, Sln.CompileCommandsJsonOrd] at h
    cases hm : mapE (fun pro =>
        mapE (compileOne sln pro (resolvedConfig sln sln.ProjectGUIDs pro conf))
          pro.FindSourceFiles) sln.ProjectList with
    | error e => rw [hm] at h; exact absurd h (by simp [Except.map])
    | ok parts =>
      rw [hm] at h
      have hcmds : parts.flatten = cmds := by
        simpa [Except.map] using h
      subst hcmds
      obtain ⟨part, hpart, hcpart⟩ := List.mem_flatten.mp hc
      obtain ⟨pro, hpro, hfpro⟩ := mapE_ok_mem _ _ _ hm part hpart
      obtain ⟨f, hf, hcf⟩ := mapE_ok_mem _ _ _ hfpro c hcpart
      refine ⟨pro, hpro, f, hf, ?_⟩
      rw [compileOne] at hcf
      cases hfc : pro.FindConfig (resolvedConfig sln sln.ProjectGUIDs pro conf) with
      | error e => rw [hfc] at hcf; exact absurd hcf (by simp)
      | ok p =>
        obtain ⟨incRaw, defRaw⟩ := p
        refine ⟨incRaw, defRaw, rfl, ?_⟩
        rw [hfc] at hcf
        simp only [Except.ok.injEq] at hcf
        exact hcf.symm
  · rfl

set_option maxRecDepth 100000 in
/-- Counterexample for C1: on the spec's own end-to-end example the
generated command string has two consecutive spaces between the flag
groups, so it is not the single-spaced
`clang-cl.exe -DFOO -DBAR -Iinc1 -Iinc2 -c main.cpp` the claim asserts. -/
theorem compileCommand_shape_counterexample :
    ((do
        let s ← NewSln "/s" exampleContent exampleLoader
        s.CompileCommandsJson "Debug|x64" : Except String (List CompileCommand)) =
      .ok [⟨"lib", "main.cpp",
        "clang-cl.exe -DFOO -DBAR  -Iinc1 -Iinc2  -c main.cpp"⟩]) ∧
    ("clang-cl.exe -DFOO -DBAR  -Iinc1 -Iinc2  -c main.cpp" ≠
      "clang-cl.exe -DFOO -DBAR -Iinc1 -Iinc2 -c main.cpp") := by
  exact ⟨by rfl, by decide⟩

set_option maxRecDepth 100000 in
/-- Witness for C1: the general shape theorem applied to the example model
and its single generated command. -/
theorem compileCommand_shape_witness :
    ∃ pro ∈ exampleSln.ProjectList, ∃ f ∈ pro.FindSourceFiles,
      ∃ incRaw defRaw,
      pro.FindConfig (resolvedConfig exampleSln exampleSln.ProjectGUIDs pro
          "Debug|x64") = .ok (incRaw, defRaw) ∧
      (⟨"lib", "main.cpp",
        "clang-cl.exe -DFOO -DBAR  -Iinc1 -Iinc2  -c main.cpp"⟩ : CompileCommand) =
        { Dir := pro.ProjectDir, File := f,
          Cmd := "clang-cl.exe " ++ preappend (RemoveBadDefinition defRaw) "-D"
            ++ " " ++
            preappend (RemoveBadInclude
              (strReplace incRaw "$(SolutionDir)" exampleSln.SolutionDir)) "-I"
            ++ " -c " ++ f } := by
  exact compileCommand_shape.1 exampleSln "Debug|x64"
    [⟨"lib", "main.cpp", "clang-cl.exe -DFOO -DBAR  -Iinc1 -Iinc2  -c main.cpp"⟩]
    (by rfl) _ (List.mem_singleton.mpr rfl)

/-- Witness for C5 at two concrete documents: one without the start marker,
one with the start marker but no end marker. -/
theorem parseConfigurationMappings_marker_behavior_witness :
    (parseConfigurationMappings "solution text without any section" = .ok []) ∧
    (∃ e, parseConfigurationMappings
      "GlobalSection(ProjectConfigurationPlatforms) left open" = .error e) := by
  have h1 := (parseConfigurationMappings_marker_behavior
    "solution text without any section").1 (by decide)
  have h2 := (parseConfigurationMappings_marker_behavior
    "GlobalSection(ProjectConfigurationPlatforms) left open").2 0 (by decide) (by decide)
  exact ⟨h1, h2⟩

end VsExport
